import Mathlib

/-!
Shallow embedding of the `ftl` library's foldable / monoid / monad machinery
for `std::forward_list`, as found in `include/ftl/concepts/foldable.h` and
the forward-list header.  A C++ `std::forward_list<T>` is modelled as a Lean
`List T`; each C++ entry point becomes an explicit Lean function.  Overloads
that may mutate their arguments (the splicing `append` overloads) are
modelled as functions returning both the result and the final contents of
the argument lists, so that frame properties of the const-lvalue entry
points are genuine statements rather than conventions of the embedding.
-/

namespace ftl

/-- `deriving_foldl::foldl(fn, z, f)`: the loop `for (e : f) z = fn(z, e); return z`. -/
def deriving_foldl {α β : Type} (fn : β → α → β) : β → List α → β
  | z, [] => z
  | z, e :: es => deriving_foldl fn (fn z e) es

/-- `_dtl::fwdfoldr(f, z, it, end)`: if the range is nonempty, combine the head
with the recursively folded tail; else return `z`. -/
def fwdfoldr {α β : Type} (f : α → β → β) (z : β) : List α → β
  | [] => z
  | x :: xs => f x (fwdfoldr f z xs)

/-- `foldable<std::forward_list<T,A>>::foldr`: forwards to `_dtl::fwdfoldr`
over `l.cbegin(), l.cend()`. -/
def flFoldr {α β : Type} (f : α → β → β) (z : β) (l : List α) : β :=
  fwdfoldr f z l

/-- `monoid<std::forward_list<Ts...>>::id()`: a default-constructed (empty) list. -/
def listId (α : Type) : List α := []

/-- Result of an `append` overload: the returned list together with the final
contents of the two argument lists after the call. -/
structure AppendOut (α : Type) where
  ret : List α
  l1 : List α
  l2 : List α

/-- `monoid<forward_list>::append(const& l1, const& l2)`:
`forward_list rl(l2); rl.insert_after(rl.before_begin(), l1.begin(), l1.end()); return rl;`
Both arguments are only read. -/
def appendCC {α : Type} (l1 l2 : List α) : AppendOut α :=
  let rl := l2
  let rl := l1 ++ rl
  ⟨rl, l1, l2⟩

/-- `monoid<forward_list>::append(&& l1, const& l2)`:
`forward_list rl(l2); rl.splice_after(rl.before_begin(), std::move(l1)); return rl;`
The splice transfers every node of `l1` to the front of `rl`, leaving `l1` empty. -/
def appendMC {α : Type} (l1 l2 : List α) : AppendOut α :=
  let rl := l2
  let rl := l1 ++ rl
  ⟨rl, [], l2⟩

/-- `monoid<forward_list>::append(const& l1, && l2)`:
`forward_list l(l1); l2.splice_after(l2.before_begin(), std::move(l)); return l2;`
The local copy of `l1` is spliced to the front of `l2`, which is then returned;
`l1` itself is only copied from. -/
def appendCM {α : Type} (l1 l2 : List α) : AppendOut α :=
  let l := l1
  let l2f := l ++ l2
  ⟨l2f, l1, l2f⟩

/-- `monoid<forward_list>::append(&& l1, && l2)`:
`l2.splice_after(l2.before_begin(), std::move(l1)); return l2;` -/
def appendMM {α : Type} (l1 l2 : List α) : AppendOut α :=
  let l2f := l1 ++ l2
  ⟨l2f, [], l2f⟩

/-- `monad<forward_list>::pure(const T& t)`: `forward_list l; l.emplace_front(t); return l;` -/
def pureC {α : Type} (t : α) : List α :=
  let l : List α := []
  t :: l

/-- `monad<forward_list>::pure(T&& t)`: same body, moving `t` into the front. -/
def pureMV {α : Type} (t : α) : List α :=
  let l : List α := []
  t :: l

/-- Result of a const-lvalue map-like entry point: the returned list together
with the final contents of the source list. -/
structure MapOut (α β : Type) where
  ret : List β
  src : List α

/-- `monad<forward_list>::map(F&& f, const forward_list<T>& l)`:
`rl` starts empty and each `f(e)` is inserted after the running tail iterator,
so every step appends one element at the end; `l` is traversed read-only. -/
def mapCC {α β : Type} (f : α → β) (l : List α) : MapOut α β :=
  ⟨l.foldl (fun rl e => rl ++ [f e]) [], l⟩

/-- `monad<forward_list>::map(F&& f, forward_list<T>&& l)` (domain-changing
overload): same construction, reading each element by move. -/
def mapMV {α β : Type} (f : α → β) (l : List α) : List β :=
  l.foldl (fun rl e => rl ++ [f e]) []

/-- `monad<forward_list>::map` no-copies overload (`f` keeps the element type,
`l` a temporary): `auto rl = std::move(l); for (auto& e : rl) e = f(e); return rl;` -/
def mapInplace {α : Type} (f : α → α) (l : List α) : List α :=
  l.map f

/-- `concatMap(F&& f, const forward_list<T,A>& l)`:
`auto nested = f % l;` (the const-lvalue functor map), then each sublist of
`nested` is spliced (by move iterators) after the running tail of `result`,
appending its elements in order; `l` is only read. -/
def concatMapCC {α β : Type} (f : α → List β) (l : List α) : MapOut α β :=
  let nested := (mapCC f l).ret
  ⟨nested.foldl (fun res el => res ++ el) [], l⟩

/-- `concatMap(F&& f, forward_list<T,A>&& l)`: same, with
`auto nested = f % std::move(l);` using the rvalue functor map. -/
def concatMapMV {α β : Type} (f : α → List β) (l : List α) : List β :=
  let nested := mapMV f l
  nested.foldl (fun res el => res ++ el) []

/-- `monad<forward_list>::bind(const forward_list<T>& l, F&& f)`:
`return concatMap(std::forward<F>(f), l);` -/
def bindCC {α β : Type} (l : List α) (f : α → List β) : List β :=
  (concatMapCC f l).ret

/-- `monad<forward_list>::bind(forward_list<T>&& l, F&& f)`:
`return concatMap(std::forward<F>(f), std::move(l));` -/
def bindMV {α β : Type} (l : List α) (f : α → List β) : List β :=
  concatMapMV f l

/-- `deriving_foldMap::foldMap(fn, f)` at the instantiation where it compiles
without user conversions (`T = M = forward_list`): it calls
`foldable<F>::foldl(lambda, monoid<M>::id(), f)` where the lambda is
`[fn](const T& a, const M& b) { return monoid<M>::append(fn(a), b); }`.
`deriving_foldl` invokes that lambda as `fn(z, e)` with the accumulator `z`
first and the element `e` second, so `a` is bound to the accumulator and `b`
to the element: each step computes `append(fn(z), e)`. -/
def foldMap {α : Type} (fn : List α → List α) (f : List (List α)) : List α :=
  deriving_foldl (fun z e => (appendCC (fn z) e).ret) (listId α) f

/-- What the spec describes for `foldMap(fn, f)`: map each ELEMENT through
`fn` and combine the images with `append` from `id()` via a left fold. -/
def foldMapSpec {α : Type} (fn : List α → List α) (f : List (List α)) : List α :=
  deriving_foldl (fun z e => (appendCC z e).ret) (listId α) (f.map fn)

/-- `deriving_fold::fold(f)`: `return foldable<F>::foldMap(id, f);` where
`ftl::id` is the identity function object. -/
def fold {α : Type} (f : List (List α)) : List α :=
  foldMap (fun x => x) f

theorem deriving_foldl_eq_foldl {α β : Type} (fn : β → α → β) :
    ∀ (z : β) (l : List α), deriving_foldl fn z l = l.foldl fn z := by
  intro z l
  induction l generalizing z with
  | nil => rfl
  | cons e es ih => simp [deriving_foldl, List.foldl, ih]

theorem foldl_append_singleton {α β : Type} (f : α → β) :
    ∀ (l : List α) (acc : List β),
      l.foldl (fun rl e => rl ++ [f e]) acc = acc ++ l.map f := by
  intro l
  induction l with
  | nil => simp
  | cons e es ih => intro acc; simp [List.foldl, ih]

theorem foldl_append_join {β : Type} :
    ∀ (n : List (List β)) (acc : List β),
      n.foldl (fun res el => res ++ el) acc = acc ++ n.flatten := by
  intro n
  induction n with
  | nil => simp
  | cons el els ih => intro acc; simp [List.foldl, ih]

theorem mapCC_ret {α β : Type} (f : α → β) (l : List α) :
    (mapCC f l).ret = l.map f := by
  simp [mapCC, foldl_append_singleton]

theorem concatMapCC_ret {α β : Type} (f : α → List β) (l : List α) :
    (concatMapCC f l).ret = (l.map f).flatten := by
  simp [concatMapCC, mapCC_ret, foldl_append_join]

/-- Claim C1 (code bug): `deriving_foldMap` is claimed to map each element
through `fn` and combine the images with `append` from `id()` via `foldl`.
The code instead applies `fn` to the accumulator at each step, because
`deriving_foldl` calls the lambda with the accumulator first while the lambda
treats its first parameter as the element.  At the input `fn = (x ↦ x ++ x)`,
`l = [[1]]`, the code returns `[1]` while the specified value is `[1, 1]`. -/
theorem C1_foldMap_applies_fn_to_accumulator :
    foldMap (fun x => x ++ x) [[(1 : Int)]] = [1] ∧
    foldMapSpec (fun x => x ++ x) [[(1 : Int)]] = [1, 1] := by
  decide

/-- Claim C2: folding `[4, 8, 5]` with subtraction and zero `3` yields `-14`
under the forward-list `foldl` (left-associative, `((3-4)-8)-5`) and `-2`
under the forward-list `foldr` (right-associative, `4-(8-(5-3))`). -/
theorem C2_foldl_foldr_example :
    deriving_foldl (fun x y => x - y) (3 : Int) [4, 8, 5] = -14 ∧
    flFoldr (fun x y => x - y) (3 : Int) [4, 8, 5] = -2 := by
  decide

/-- Claim C3: for every forward list `l` and list-valued `f`, `bind(l, f)`
equals `concatMap(f, l)`, and both equal the in-order concatenation of the
sublists produced by mapping `f` over `l`, i.e. the flattening of
`map(f, l)`. -/
theorem C3_bind_eq_concatMap_eq_flatten (α β : Type) (l : List α) (f : α → List β) :
    bindCC l f = (concatMapCC f l).ret ∧ (concatMapCC f l).ret = (l.map f).flatten :=
  ⟨rfl, concatMapCC_ret f l⟩

/-- Claim C4: monoid identity for the forward-list monoid: appending the
empty list `id()` on either side returns the other list unchanged. -/
theorem C4_monoid_identity (α : Type) (L : List α) :
    (appendCC (listId α) L).ret = L ∧ (appendCC L (listId α)).ret = L := by
  constructor
  · rfl
  · simp [appendCC, listId]

/-- Claim C5: monoid associativity for the forward-list monoid:
`append(append(A, B), C) = append(A, append(B, C))`. -/
theorem C5_monoid_assoc (α : Type) (A B C : List α) :
    (appendCC (appendCC A B).ret C).ret = (appendCC A (appendCC B C).ret).ret := by
  simp [appendCC]

/-- Claim C6: the derived `fold(L)` equals `foldMap(identity, L)` and combines
the elements of `L` directly with the monoid `append`, starting from `id()`,
by a left fold. -/
theorem C6_fold_eq_foldMap_id (α : Type) (L : List (List α)) :
    fold L = foldMap (fun x => x) L ∧
    fold L = deriving_foldl (fun z e => (appendCC z e).ret) (listId α) L :=
  ⟨rfl, rfl⟩

/-- Claim C7: the rvalue (splicing / moving) overloads return the same list
contents as the copying overloads: all three splicing `append` overloads agree
with the copying `append`; both rvalue `map` overloads agree with the
const-lvalue `map`; and the rvalue `bind` agrees with the const-lvalue
`bind`. -/
theorem C7_move_copy_equivalence (α β : Type) (A B : List α) (f : α → β)
    (g : α → α) (l : List α) (h : α → List β) :
    (appendMC A B).ret = (appendCC A B).ret ∧
    (appendCM A B).ret = (appendCC A B).ret ∧
    (appendMM A B).ret = (appendCC A B).ret ∧
    mapMV f l = (mapCC f l).ret ∧
    mapInplace g l = (mapCC g l).ret ∧
    bindMV l h = bindCC l h := by
  refine ⟨rfl, rfl, rfl, rfl, ?_, rfl⟩
  rw [mapCC_ret]
  rfl

/-- Claim C8: monad right identity for the forward-list monad:
`bind(L, pure) = L`. -/
theorem C8_monad_right_identity (α : Type) (l : List α) :
    bindCC l pureC = l := by
  rw [bindCC, concatMapCC_ret]
  induction l with
  | nil => rfl
  | cons x xs ih => simp [pureC, ih]

/-- Claim C9: `pure(x)` builds the one-element list `[x]`, for both the
copying and the moving overload. -/
theorem C9_pure_singleton (α : Type) (x : α) :
    pureC x = [x] ∧ pureMV x = [x] :=
  ⟨rfl, rfl⟩

/-- Claim C10: the const-lvalue entry points only read their arguments: after
`append(l1, l2)` both argument lists hold their original contents, and after
the const-lvalue `map(f, l)` and `concatMap(g, l)` the source list holds its
original contents; each result is a newly built list. -/
theorem C10_const_entry_points_no_mutation (α β : Type) (l1 l2 : List α)
    (f : α → β) (g : α → List β) (l : List α) :
    (appendCC l1 l2).l1 = l1 ∧ (appendCC l1 l2).l2 = l2 ∧
    (mapCC f l).src = l ∧ (concatMapCC g l).src = l :=
  ⟨rfl, rfl, rfl, rfl⟩

end ftl
